import Mathlib

/-!
Verification of the buzzdb storage/buffer core against its specification.

Shallow embedding of the C++ sources:
  - src/common/config.h, src/common/types.h : constants;
  - src/buffer/two_q_policy.h               : the 2Q replacement policy;
  - src/storage/slot.h, slotted_page.h      : the slot directory and addTuple;
  - src/storage/storage_manager.h           : extend() / extend(till_page_id);
  - src/execution/insert_operator.h         : InsertOperator::next;
  - src/storage/field.h, tuple.h            : Field/Tuple comparison, arithmetic
                                              and text (de)serialization.

Machine integers are modelled as Nat/Int with explicit truncation where the
C++ stores into a narrower type.  C++ streams are modelled as byte lists with
an explicit fail flag (the failbit): a failed extraction writes 0 (C++11
semantics) and latches the flag, after which every extraction is a no-op.
-/

namespace BuzzDB

/-! ## Constants (src/common/config.h)

PAGE_SIZE = 4096, MAX_SLOTS = 512, INVALID_VALUE = numeric_limits<uint16_t>::max().
sizeof(Slot) on the target ABI is 6: {bool empty; uint16_t offset; uint16_t length}
with the empty flag at byte 0, one padding byte, offset at bytes 2..3 and length
at bytes 4..5 (both little-endian); the static_assert in slot.h bounds it by 8.
METADATA_SIZE = sizeof(Slot) * MAX_SLOTS. -/

def PAGE_SIZE : Nat := 4096

def MAX_SLOTS : Nat := 512

def INVALID_VALUE : Nat := 65535

def SLOT_SIZE : Nat := 6

def METADATA_SIZE : Nat := MAX_SLOTS * SLOT_SIZE

/-- Page pin states (two_q_policy.h): `using PageState = int` with
UNFIXED = 0, EXCLUSIVE = -1, positive = shared count. -/
def PAGE_UNFIXED : Int := 0

def PAGE_EXCLUSIVE : Int := -1

/-! ## 2Q replacement policy (src/buffer/two_q_policy.h)

The policy state is the pair of queues.  The C++ keeps an auxiliary
unordered_map from page id to list iterator purely for O(1) membership and
node lookup; the maps always index exactly the elements of their list, so the
state is faithfully the two lists and membership tests stand for map lookups. -/

structure TwoQ where
  fifo : List Nat
  lru : List Nat
deriving DecidableEq

def emptyTwoQ : TwoQ := { fifo := [], lru := [] }

/-- TwoQPolicy::touch (two_q_policy.h:124-149): if the page is in FIFO, splice
it to the back of LRU and return true; else if in LRU, splice it to the back of
LRU and return true; else push it onto the back of FIFO and return false. -/
def TwoQ.touch (s : TwoQ) (p : Nat) : TwoQ × Bool :=
  if p ∈ s.fifo then
    ({ fifo := s.fifo.erase p, lru := s.lru ++ [p] }, true)
  else if p ∈ s.lru then
    ({ fifo := s.fifo, lru := s.lru.erase p ++ [p] }, true)
  else
    ({ fifo := s.fifo ++ [p], lru := s.lru }, false)

/-- Fold a sequence of touches (used to state the spec's scenario S1). -/
def TwoQ.touchMany (s : TwoQ) (ps : List Nat) : TwoQ :=
  ps.foldl (fun t p => (t.touch p).1) s

/-- Is page `p` UNFIXED according to the state map?  The C++ scan requires the
map lookup to succeed AND the state to equal PAGE_UNFIXED; an absent page never
qualifies. -/
def unfixedIn (m : Nat → Option Int) (p : Nat) : Bool :=
  m p == some PAGE_UNFIXED

/-- One queue scan of TwoQPolicy::evict(state_of_page): front-to-tail, return
the first page whose mapped state is UNFIXED together with the queue with that
node erased. -/
def evictScan (m : Nat → Option Int) : List Nat → Option (Nat × List Nat)
  | [] => none
  | p :: rest =>
    if m p = some PAGE_UNFIXED then some (p, rest)
    else
      match evictScan m rest with
      | none => none
      | some (v, l) => some (v, p :: l)

/-- TwoQPolicy::evict(state_of_page) (two_q_policy.h:188-212): scan FIFO, then
LRU; `none` models `throw buffer_full_error()`. -/
def TwoQ.evictWithState (s : TwoQ) (m : Nat → Option Int) : Option (Nat × TwoQ) :=
  match evictScan m s.fifo with
  | some (v, f) => some (v, { fifo := f, lru := s.lru })
  | none =>
    match evictScan m s.lru with
    | some (v, l) => some (v, { fifo := s.fifo, lru := l })
    | none => none

/-- The eviction rule as the specification words it: the first page of
FIFO (front-to-tail) whose state is UNFIXED, removed from FIFO; otherwise the
first such page of LRU, removed from LRU; otherwise BufferFull. -/
def TwoQ.evictSpec (s : TwoQ) (m : Nat → Option Int) : Option (Nat × TwoQ) :=
  match s.fifo.find? (unfixedIn m) with
  | some v => some (v, { fifo := s.fifo.eraseP (unfixedIn m), lru := s.lru })
  | none =>
    match s.lru.find? (unfixedIn m) with
    | some v => some (v, { fifo := s.fifo, lru := s.lru.eraseP (unfixedIn m) })
    | none => none

/-! ## Slot directory and SlottedPage::addTuple (src/storage/slot.h, slotted_page.h)

A page's slot directory is a list of Slot entries (the C++ array has
MAX_SLOTS = 512 of them; the model works for any directory length and is
instantiated at 512).  `offset` and `length` are uint16_t: stores into them
truncate mod 65536; the bounds check in addTuple uses the untruncated size_t
local, exactly as the C++ does. -/

structure Slot where
  empty : Bool
  offset : Nat
  length : Nat
deriving DecidableEq

/-- A never-used slot as SlottedPage's constructor initializes it. -/
def defaultSlot : Slot := { empty := true, offset := INVALID_VALUE, length := INVALID_VALUE }

instance : Inhabited Slot := ⟨defaultSlot⟩

/-- Index of the first element satisfying `p` (the C++ `for` scans). -/
def firstIdx {α : Type} (p : α → Bool) : List α → Option Nat
  | [] => none
  | a :: rest => if p a then some 0 else (firstIdx p rest).map (fun i => i + 1)

/-- SlottedPage::addTuple (slotted_page.h:143-226) on the slot directory,
given the encoded tuple size.  Returns (success, directory after the call).
The first loop looks for an empty slot with recorded length ≥ tuple_size
(a never-used slot's recorded length is the sentinel 65535, so it also
qualifies whenever tuple_size ≤ 65535); the second loop looks for an empty
never-used slot (offset = INVALID).  The chosen slot's empty flag and, for a
never-used slot, its offset are written before the bounds check and reverted
to empty = true, offset = INVALID if offset + tuple_size ≥ PAGE_SIZE — note
the revert writes INVALID over a reused slot's offset unconditionally.
The copied tuple bytes are not modelled; the claim is about slot choice,
offsets, lengths and the failure condition. -/
def addTuple (slots : List Slot) (tuple_size : Nat) : Bool × List Slot :=
  let choice :=
    match firstIdx (fun s => s.empty && decide (tuple_size ≤ s.length)) slots with
    | some i => some i
    | none => firstIdx (fun s => s.empty && decide (s.offset = INVALID_VALUE)) slots
  match choice with
  | none => (false, slots)
  | some i =>
    let sI := slots.getD i defaultSlot
    let offset :=
      if sI.offset = INVALID_VALUE then
        if i ≠ 0 then
          let prev := slots.getD (i - 1) defaultSlot
          if prev.offset ≠ INVALID_VALUE then prev.offset + prev.length else METADATA_SIZE
        else METADATA_SIZE
      else sI.offset
    if PAGE_SIZE ≤ offset + tuple_size then
      (false, slots.set i { empty := true, offset := INVALID_VALUE, length := sI.length })
    else
      (true, slots.set i
        { empty := false
          offset := if sI.offset = INVALID_VALUE then offset % 65536 else sI.offset
          length := if sI.length = INVALID_VALUE then tuple_size % 65536 else sI.length })

/-- The insertion rule exactly as claim C3 words it: first an emptied slot
(used before, so offset ≠ INVALID) whose retained length is at least the
encoded size; otherwise the first never-used slot (offset = INVALID);
otherwise NoSpace.  The offset is the reused slot's existing offset, or
METADATA_SIZE for never-used slot 0, or otherwise the predecessor slot's
offset + length.  When offset + size ≥ PAGE_SIZE the insert fails NoSpace
with the directory unchanged (the chosen slot reverted to its prior state). -/
def addTupleSpecC3 (slots : List Slot) (tuple_size : Nat) : Bool × List Slot :=
  let choice :=
    match firstIdx
        (fun s => s.empty && decide (s.offset ≠ INVALID_VALUE) && decide (tuple_size ≤ s.length))
        slots with
    | some i => some i
    | none => firstIdx (fun s => decide (s.offset = INVALID_VALUE)) slots
  match choice with
  | none => (false, slots)
  | some i =>
    let sI := slots.getD i defaultSlot
    let offset :=
      if sI.offset ≠ INVALID_VALUE then sI.offset
      else if i = 0 then METADATA_SIZE
      else (slots.getD (i - 1) defaultSlot).offset + (slots.getD (i - 1) defaultSlot).length
    if PAGE_SIZE ≤ offset + tuple_size then
      (false, slots)
    else
      (true, slots.set i
        { empty := false
          offset := offset
          length := if sI.length = INVALID_VALUE then tuple_size else sI.length })

/-- Well-formedness of a slot directory, from the spec's data-model
invariants (§3): a never-used slot (offset = INVALID) has length = INVALID,
is empty, and — since slots are handed out first-free-first — is followed
only by never-used slots; a used slot's tuple area lies within
[METADATA_SIZE, PAGE_SIZE).  Every directory reachable from a fresh page
through addTuple/deleteTuple satisfies this. -/
def SlotsWF (slots : List Slot) : Prop :=
  ∀ i, i < slots.length →
    ((slots.getD i defaultSlot).offset = INVALID_VALUE →
      (slots.getD i defaultSlot).length = INVALID_VALUE ∧
      (slots.getD i defaultSlot).empty = true ∧
      ∀ j, j < slots.length → i ≤ j → (slots.getD j defaultSlot).offset = INVALID_VALUE) ∧
    ((slots.getD i defaultSlot).offset ≠ INVALID_VALUE →
      METADATA_SIZE ≤ (slots.getD i defaultSlot).offset ∧
      (slots.getD i defaultSlot).offset + (slots.getD i defaultSlot).length < PAGE_SIZE)

instance slotsWFDecidable (slots : List Slot) : Decidable (SlotsWF slots) := by
  unfold SlotsWF
  infer_instance

/-! ## InsertOperator::next (src/execution/insert_operator.h:68-104)

The buffer manager is transparent for this operator: `fix_page(i, true)`
hands the operator page i of the file and `unfix_page(frame, dirty)` releases
it, recording whether the page was modified.  The database is therefore
modelled as the list of its pages' slot directories.  `insertNext` returns
(success, pages after the call, the unfix trace: one dirty flag per fixed
page in scan order). -/

/-- The slot directory of a freshly constructed SlottedPage (the page
`BufferManager::extend` appends and `fix_page` then loads). -/
def freshSlots : List Slot := List.replicate MAX_SLOTS defaultSlot

/-- The scan loop of InsertOperator::next over the existing pages. -/
def insertScanTr (tuple_size : Nat) : List (List Slot) → Bool × List (List Slot) × List Bool
  | [] => (false, [], [])
  | p :: rest =>
    let r := addTuple p tuple_size
    if r.1 then (true, r.2 :: rest, [true])
    else
      let rr := insertScanTr tuple_size rest
      (rr.1, r.2 :: rr.2.1, false :: rr.2.2)

/-- InsertOperator::next: scan pages 0..num_pages in order, fixing each
exclusively and attempting the page insert; on success unfix dirty and stop;
on failure unfix clean.  If no page admits the tuple, extend the file by one
fresh page and retry on it; a failure there returns false (TupleTooLarge). -/
def insertNext (db : List (List Slot)) (tuple_size : Nat) : Bool × List (List Slot) × List Bool :=
  let r := insertScanTr tuple_size db
  if r.1 then r
  else
    let rf := addTuple freshSlots tuple_size
    (rf.1, r.2.1 ++ [rf.2], r.2.2 ++ [rf.1])

/-! ## StorageManager file extension (src/storage/storage_manager.h)

The file is a list of pages; a page is its byte content, a function from byte
index (0 ≤ i < PAGE_SIZE) to byte value.  `num_pages` is the list's length.

extend() (lines 225-237) constructs a fresh SlottedPage — whose constructor
writes every slot as {empty = true (byte 1), offset = 0xFFFF, length = 0xFFFF}
into the zero-initialized buffer — and appends its PAGE_SIZE bytes.

extend(till_page_id) (lines 246-264) returns unchanged if
till_page_id < num_pages, and otherwise appends till_page_id + 1 - num_pages
pages of ALL-ZERO bytes (a vector<char> of zeros) and sets
num_pages = till_page_id + 1. -/

/-- A page of all-zero bytes, as extend(till_page_id) appends. -/
def zeroPageByte : Nat → Nat := fun _ => 0

/-- The bytes of a freshly constructed SlottedPage: per slot (stride 6),
byte 0 is the empty flag = 1, byte 1 is zero padding, bytes 2..5 are the two
0xFFFF sentinels; the tuple area beyond METADATA_SIZE stays zero. -/
def freshPageByte (i : Nat) : Nat :=
  if i < METADATA_SIZE then
    if i % SLOT_SIZE = 0 then 1
    else if 2 ≤ i % SLOT_SIZE then 255
    else 0
  else 0

/-- Reading slot `i` of a page's bytes through `reinterpret_cast<Slot*>`:
the bool is true iff its byte is nonzero; offset and length are little-endian
uint16_t at in-slot offsets 2 and 4. -/
def decodeSlot (page : Nat → Nat) (i : Nat) : Slot :=
  { empty := page (SLOT_SIZE * i) != 0
    offset := page (SLOT_SIZE * i + 2) + 256 * page (SLOT_SIZE * i + 3)
    length := page (SLOT_SIZE * i + 4) + 256 * page (SLOT_SIZE * i + 5) }

/-- The slot directory a loaded page presents: MAX_SLOTS decoded slots. -/
def decodePage (page : Nat → Nat) : List Slot :=
  (List.range MAX_SLOTS).map (decodeSlot page)

/-- SlottedPage::countTuples (slotted_page.h:314-323): occupied slots. -/
def countTuples (page : Nat → Nat) : Nat :=
  ((decodePage page).filter (fun s => !s.empty)).length

/-- StorageManager::extend() — append one freshly initialized page. -/
def extendF (file : List (Nat → Nat)) : List (Nat → Nat) :=
  file ++ [freshPageByte]

/-- StorageManager::extend(till_page_id) — pad with zero pages up to and
including till_page_id; no-op when the file is already long enough. -/
def extendTo (file : List (Nat → Nat)) (till : Nat) : List (Nat → Nat) :=
  if till < file.length then file
  else file ++ List.replicate (till + 1 - file.length) zeroPageByte

/-! ## Field: tagged values, comparison, arithmetic (src/storage/field.h)

The int payload is the stored int32 value; the float payload abstracts the
stored 32-bit IEEE value as the rational number it denotes (NaN is not
modelled; on non-NaN values the IEEE comparisons agree with the rational
order); the string payload is the stored byte sequence without the
terminating NUL the constructor appends. -/

inductive FieldType where
  | INT
  | FLOAT
  | STRING
deriving DecidableEq

inductive Field where
  | int (v : Int)
  | float (v : Rat)
  | str (s : List Nat)
deriving DecidableEq

def Field.type : Field → FieldType
  | .int _ => .INT
  | .float _ => .FLOAT
  | .str _ => .STRING

/-- The integer written for a FieldType when serializing (enum values). -/
def typeTag : FieldType → Nat
  | .INT => 0
  | .FLOAT => 1
  | .STRING => 2

/-- Field::data_length: sizeof(int) = sizeof(float) = 4, strings store
size() + 1 bytes (the NUL included). -/
def Field.dataLength : Field → Nat
  | .int _ => 4
  | .float _ => 4
  | .str s => s.length + 1

/-- Field::asString() on a STRING field builds std::string(data.get()),
which stops at the first NUL byte of the stored buffer. -/
def cStr (s : List Nat) : List Nat := s.takeWhile (fun b => b != 0)

/-- std::string operator<: lexicographic byte comparison, a proper prefix
ordering before any extension. -/
def bytesLt : List Nat → List Nat → Bool
  | _, [] => false
  | [], _ :: _ => true
  | a :: as, b :: bs => if a < b then true else if b < a then false else bytesLt as bs

/-- operator==(Field, Field) (field.h:310-327): false when the types differ;
equal-typed values are compared — strings over the full stored byte range
std::string(data.get(), data_length - 1).  The `default: throw` branch is
unreachable for the three well-formed tags. -/
def fieldEq : Field → Field → Bool
  | .int a, .int b => a == b
  | .float a, .float b => a == b
  | .str a, .str b => a == b
  | _, _ => false

/-- operator<(Field, Field) (field.h:352-367).  The second component records
whether the operator wrote the "invalid comparison: incompatible type"
diagnostic to cerr: on a type mismatch it prints and returns false; with
equal types it compares values, strings via asString() (NUL-truncated). -/
def fieldLt (a b : Field) : Bool × Bool :=
  match a, b with
  | .int x, .int y => (decide (x < y), false)
  | .float x, .float y => (decide (x < y), false)
  | .str x, .str y => (bytesLt (cStr x) (cStr y), false)
  | _, _ => (false, true)

/-- operator!=(Field, Field) (field.h:332-348): prints to cerr and returns
false on a type mismatch (so a != b disagrees with !(a == b) there);
otherwise compares values via the typed accessors (strings via asString()). -/
def fieldNe (a b : Field) : Bool × Bool :=
  match a, b with
  | .int x, .int y => (decide (x ≠ y), false)
  | .float x, .float y => (decide (x ≠ y), false)
  | .str x, .str y => (decide (cStr x ≠ cStr y), false)
  | _, _ => (false, true)

/-- Two's-complement wraparound of 32-bit signed arithmetic. -/
def wrap32 (x : Int) : Int := (x + 2 ^ 31) % 2 ^ 32 - 2 ^ 31

/-- Field::operator+=(int) (field.h:211-216): adds to the stored int only
when the tag is INT; otherwise the field is silently left unchanged. -/
def Field.addInt (f : Field) (v : Int) : Field :=
  match f with
  | .int x => .int (wrap32 (x + v))
  | g => g

/-- Field::operator+=(float) (field.h:220-225): adds to the stored float
only when the tag is FLOAT; otherwise the field is silently left unchanged.
Rat addition abstracts the IEEE float addition. -/
def Field.addFloat (f : Field) (q : Rat) : Field :=
  match f with
  | .float x => .float (x + q)
  | g => g

/-- Claim C8's reading of operator+=: a mismatched tag FAILS with
TypeMismatch (modelled as none); a matching tag adds. -/
def addIntSpecC8 (f : Field) (v : Int) : Option Field :=
  match f with
  | .int x => some (.int (wrap32 (x + v)))
  | _ => none

/-- Claim C8's reading of operator+=(float). -/
def addFloatSpecC8 (f : Field) (q : Rat) : Option Field :=
  match f with
  | .float x => some (.float (x + q))
  | _ => none

/-! ## Text serialization (field.h:233-276, tuple.h:168-197)

Serialized data is a byte list.  An input stream is the remaining bytes plus
the failbit: a failed extraction writes 0 into the target (C++11) and
latches the failbit, after which every extraction is a no-op. -/

/-- The whitespace bytes `istream >>` skips: space, \t, \n, \v, \f, \r. -/
def isWs (b : Nat) : Bool :=
  b == 32 || b == 9 || b == 10 || b == 11 || b == 12 || b == 13

def isDigitByte (b : Nat) : Bool := decide (48 ≤ b) && decide (b ≤ 57)

/-- Decimal digits of n as ASCII bytes, most significant first; fuel-based
structural recursion so it evaluates under kernel reduction. -/
def natToBytesCore (fuel n : Nat) : List Nat :=
  match fuel with
  | 0 => []
  | fuel' + 1 => if n = 0 then [] else natToBytesCore fuel' (n / 10) ++ [n % 10 + 48]

/-- The decimal rendering `ostream <<` produces for an unsigned value. -/
def natToBytes (n : Nat) : List Nat :=
  if n = 0 then [48] else natToBytesCore n n

/-- The decimal rendering `ostream <<` produces for an int. -/
def intToBytes (i : Int) : List Nat :=
  if i < 0 then 45 :: natToBytes (-i).toNat else natToBytes i.toNat

/-- Value of an ASCII digit run, most significant first. -/
def digitsVal (ds : List Nat) : Nat := ds.foldl (fun a b => a * 10 + (b - 48)) 0

/-- An input stream: remaining bytes and the failbit. -/
structure IStream where
  data : List Nat
  fail : Bool
deriving DecidableEq

/-- `istream >>` for an integer (num_get, base 10): skip whitespace, an
optional sign, then a maximal digit run.  No digits is an extraction
failure: the value becomes 0 and the failbit latches.  Out-of-range
saturation is not modelled; every theorem stays within range. -/
def IStream.readInt (s : IStream) : Int × IStream :=
  if s.fail then (0, s)
  else
    let l1 := s.data.dropWhile isWs
    let neg : Bool := l1.head? == some 45
    let l2 := if l1.head? == some 45 || l1.head? == some 43 then l1.tail else l1
    let ds := l2.takeWhile isDigitByte
    if ds = [] then (0, { data := l2, fail := true })
    else
      ((if neg then -(digitsVal ds : Int) else (digitsVal ds : Int)),
        { data := l2.dropWhile isDigitByte, fail := false })

/-- `istream >>` for std::string: skip whitespace, then a maximal run of
non-whitespace bytes; extracting nothing (end of input) sets the failbit
and leaves the cleared string empty. -/
def IStream.readStr (s : IStream) : List Nat × IStream :=
  if s.fail then ([], s)
  else
    let l1 := s.data.dropWhile isWs
    let tok := l1.takeWhile (fun b => !isWs b)
    if tok = [] then ([], { data := l1, fail := true })
    else (tok, { data := l1.dropWhile (fun b => !isWs b), fail := false })

/-- `istream >>` for float, over the rationals: optional sign, integer
digits, optional '.' and fraction digits, optional decimal exponent.  The
parsed value is exact (rounding to the nearest binary32 is not modelled, nor
are strtof's hex-float forms); no theorem depends on the parsed value. -/
def IStream.readFloat (s : IStream) : Rat × IStream :=
  if s.fail then (0, s)
  else
    let l1 := s.data.dropWhile isWs
    let neg : Bool := l1.head? == some 45
    let l2 := if l1.head? == some 45 || l1.head? == some 43 then l1.tail else l1
    let ip := l2.takeWhile isDigitByte
    let l3 := l2.dropWhile isDigitByte
    let fp := if l3.head? == some 46 then l3.tail.takeWhile isDigitByte else []
    let l4 := if l3.head? == some 46 then l3.tail.dropWhile isDigitByte else l3
    if ip = [] ∧ fp = [] then (0, { data := l2, fail := true })
    else
      let mant : Rat := (digitsVal ip : Rat) + (digitsVal fp : Rat) / ((10 : Rat) ^ fp.length)
      let signed : Rat := if neg then -mant else mant
      if l4.head? == some 101 || l4.head? == some 69 then
        let l5 := l4.tail
        let eneg : Bool := l5.head? == some 45
        let l6 := if l5.head? == some 45 || l5.head? == some 43 then l5.tail else l5
        let eds := l6.takeWhile isDigitByte
        if eds = [] then (0, { data := l6, fail := true })
        else
          (signed * (10 : Rat) ^ (if eneg then -(digitsVal eds : Int) else (digitsVal eds : Int)),
            { data := l6.dropWhile isDigitByte, fail := false })
      else (signed, { data := l4, fail := false })

/-- Field::serialize (field.h:233-245): "<type> <data_length> <value> ".
The float rendering abstracts the C++ stream's default 6-significant-digit
formatting — which is LOSSY, which is why float fields appear in no
round-trip theorem below; a STRING field writes data.get(), i.e. the stored
bytes up to the first NUL. -/
def floatToBytes (q : Rat) : List Nat :=
  intToBytes q.num ++ (if q.den = 1 then [] else 47 :: natToBytes q.den)

def Field.serializeBytes : Field → List Nat
  | .int v => natToBytes 0 ++ [32] ++ natToBytes 4 ++ [32] ++ intToBytes v ++ [32]
  | .float q => natToBytes 1 ++ [32] ++ natToBytes 4 ++ [32] ++ floatToBytes q ++ [32]
  | .str s => natToBytes 2 ++ [32] ++ natToBytes (s.length + 1) ++ [32] ++ cStr s ++ [32]

/-- Field::deserialize (field.h:256-276): read the type tag and the (read
but unused) data length, then the value for tag 2 (STRING), 0 (INT) or
1 (FLOAT); any other tag returns nullptr (`none`) without reading a value. -/
def Field.deserializeB (s : IStream) : Option Field × IStream :=
  let r1 := s.readInt
  let r2 := r1.2.readInt
  if r1.1 = 2 then
    let r3 := r2.2.readStr
    (some (.str r3.1), r3.2)
  else if r1.1 = 0 then
    let r3 := r2.2.readInt
    (some (.int r3.1), r3.2)
  else if r1.1 = 1 then
    let r3 := r2.2.readFloat
    (some (.float r3.1), r3.2)
  else (none, r2.2)

/-- Tuple::serialize (tuple.h:168-175): "<field_count> <field_1> <field_2> …". -/
def Tuple.serializeBytes (fs : List Field) : List Nat :=
  natToBytes fs.length ++ [32] ++ (fs.map Field.serializeBytes).flatten

/-- The deserialization loop body: one Field::deserialize per announced
field, appending every result — nullptr included — to the tuple. -/
def deserializeFields : Nat → IStream → List (Option Field)
  | 0, _ => []
  | n + 1, s =>
    let r := Field.deserializeB s
    r.1 :: deserializeFields n r.2

/-- Tuple::deserialize (tuple.h:186-197): read the field count (a size_t —
a negative token converts modulo 2^64) and loop. -/
def Tuple.deserializeB (s : IStream) : List (Option Field) :=
  let r := s.readInt
  deserializeFields ((r.1 % (2 : Int) ^ 64).toNat) r.2

/-- The fields covered by C5's amended round-trip: INT fields in int32
range, and STRING fields that are nonempty, whitespace-free and NUL-free.
FLOAT fields are excluded — the C++ 6-significant-digit float formatting is
lossy, so they do not round-trip either. -/
def FieldRT : Field → Prop
  | .int v => -(2 ^ 31) ≤ v ∧ v < 2 ^ 31
  | .float _ => False
  | .str s => s ≠ [] ∧ ∀ b ∈ s, isWs b = false ∧ b ≠ 0

instance fieldRTDecidable (f : Field) : Decidable (FieldRT f) :=
  match f with
  | .int v => inferInstanceAs (Decidable (-(2 ^ 31) ≤ v ∧ v < 2 ^ 31))
  | .float _ => inferInstanceAs (Decidable False)
  | .str s => inferInstanceAs (Decidable (s ≠ [] ∧ ∀ b ∈ s, isWs b = false ∧ b ≠ 0))

/-- The stream position at which the k-th announced field's decode starts. -/
def fieldStreamAt (s : IStream) : Nat → IStream
  | 0 => s
  | k + 1 => fieldStreamAt (Field.deserializeB s).2 k

/-! ## Theorems -/

theorem evictScan_eq (m : Nat → Option Int) (l : List Nat) :
    evictScan m l = (l.find? (unfixedIn m)).map (fun v => (v, l.eraseP (unfixedIn m))) := by
  induction l with
  | nil => rfl
  | cons p rest ih =>
    by_cases h : m p = some PAGE_UNFIXED
    · simp [evictScan, h, List.find?_cons, unfixedIn, List.eraseP_cons]
    · have hb : unfixedIn m p = false := by
        simp [unfixedIn, h]
      simp only [evictScan, if_neg h, List.find?_cons, hb, List.eraseP_cons, ih]
      cases hrest : rest.find? (unfixedIn m) <;> simp

theorem evictScan_none_iff (m : Nat → Option Int) (l : List Nat) :
    evictScan m l = none ↔ ∀ p ∈ l, m p ≠ some PAGE_UNFIXED := by
  rw [evictScan_eq]
  simp [List.find?_eq_none, unfixedIn]

/-- C1.  TwoQPolicy::evict(state_map) returns the first page — scanning FIFO
front-to-tail and then LRU front-to-tail — whose state in the map is UNFIXED,
removing that page from its queue (this is `evictSpec`, the claim's wording);
every returned page has mapped state UNFIXED (so never EXCLUSIVE = -1 nor a
positive shared count); and it fails BufferFull (returns `none`) exactly when
no tracked page has mapped state UNFIXED. -/
theorem c1_evict_first_unfixed (s : TwoQ) (m : Nat → Option Int) :
    s.evictWithState m = s.evictSpec m ∧
    (∀ v t, s.evictWithState m = some (v, t) → m v = some PAGE_UNFIXED) ∧
    (s.evictWithState m = none ↔ ∀ p ∈ s.fifo ++ s.lru, m p ≠ some PAGE_UNFIXED) := by
  refine ⟨?_, ?_, ?_⟩
  · cases hf : s.fifo.find? (unfixedIn m) with
    | some v => simp [TwoQ.evictWithState, TwoQ.evictSpec, evictScan_eq, hf]
    | none =>
      cases hl : s.lru.find? (unfixedIn m) with
      | some v => simp [TwoQ.evictWithState, TwoQ.evictSpec, evictScan_eq, hf, hl]
      | none => simp [TwoQ.evictWithState, TwoQ.evictSpec, evictScan_eq, hf, hl]
  · intro v t h
    cases hf : s.fifo.find? (unfixedIn m) with
    | some w =>
      simp [TwoQ.evictWithState, evictScan_eq, hf] at h
      have := List.find?_some hf
      rw [h.1] at this
      simpa [unfixedIn] using this
    | none =>
      cases hl : s.lru.find? (unfixedIn m) with
      | some w =>
        simp [TwoQ.evictWithState, evictScan_eq, hf, hl] at h
        have := List.find?_some hl
        rw [h.1] at this
        simpa [unfixedIn] using this
      | none =>
        simp [TwoQ.evictWithState, evictScan_eq, hf, hl] at h
  · unfold TwoQ.evictWithState
    constructor
    · intro h p hp
      rcases List.mem_append.mp hp with hpf | hpl
      · cases hf : evictScan m s.fifo with
        | some r => rw [hf] at h; simp at h
        | none => exact (evictScan_none_iff m s.fifo).mp hf p hpf
      · cases hf : evictScan m s.fifo with
        | some r => rw [hf] at h; simp at h
        | none =>
          rw [hf] at h
          cases hl : evictScan m s.lru with
          | some r => rw [hl] at h; simp at h
          | none => exact (evictScan_none_iff m s.lru).mp hl p hpl
    · intro h
      have hf : evictScan m s.fifo = none :=
        (evictScan_none_iff m s.fifo).mpr fun p hp => h p (List.mem_append.mpr (Or.inl hp))
      have hl : evictScan m s.lru = none :=
        (evictScan_none_iff m s.lru).mpr fun p hp => h p (List.mem_append.mpr (Or.inr hp))
      rw [hf, hl]

/-- Instance of C1 at a concrete input: both queues tracked but every page
EXCLUSIVE or SHARED, so eviction fails BufferFull. -/
theorem c1_evict_witness :
    TwoQ.evictWithState { fifo := [1, 2], lru := [3] }
      (fun p => if p = 3 then some 2 else some PAGE_EXCLUSIVE) = none :=
  (c1_evict_first_unfixed { fifo := [1, 2], lru := [3] }
    (fun p => if p = 3 then some 2 else some PAGE_EXCLUSIVE)).2.2.mpr (by decide)

/-- C2.  TwoQPolicy::touch: returns true exactly when the page is already
tracked; a page in FIFO moves to the tail of LRU, a page in LRU moves to the
tail of LRU, a new page is appended to the tail of FIFO.  The last conjunct is
the spec's scenario S1: from an empty policy, touch(1) … touch(10) then
touch(1) leaves FIFO = [2,…,10] and LRU = [1]. -/
theorem c2_touch_promotes (s : TwoQ) (p : Nat) :
    ((s.touch p).2 = true ↔ p ∈ s.fifo ∨ p ∈ s.lru) ∧
    (p ∈ s.fifo → (s.touch p).1 = { fifo := s.fifo.erase p, lru := s.lru ++ [p] }) ∧
    (p ∉ s.fifo → p ∈ s.lru →
      (s.touch p).1 = { fifo := s.fifo, lru := s.lru.erase p ++ [p] }) ∧
    (p ∉ s.fifo → p ∉ s.lru → (s.touch p).1 = { fifo := s.fifo ++ [p], lru := s.lru }) ∧
    TwoQ.touchMany emptyTwoQ [1, 2, 3, 4, 5, 6, 7, 8, 9, 10, 1] =
      { fifo := [2, 3, 4, 5, 6, 7, 8, 9, 10], lru := [1] } := by
  refine ⟨?_, ?_, ?_, ?_, by decide⟩
  · unfold TwoQ.touch
    split_ifs with h1 h2
    · simp [h1]
    · simp [h1, h2]
    · simp [h1, h2]
  · intro h1
    simp [TwoQ.touch, h1]
  · intro h1 h2
    simp [TwoQ.touch, h1, h2]
  · intro h1 h2
    simp [TwoQ.touch, h1, h2]

/-- Instance of C2 at a concrete input: touching a page sitting in FIFO
promotes it to the tail of LRU. -/
theorem c2_touch_witness :
    (TwoQ.touch { fifo := [7, 8], lru := [9] } 7).1 =
      { fifo := [8], lru := [9, 7] } :=
  (c2_touch_promotes { fifo := [7, 8], lru := [9] } 7).2.1 (by decide)

theorem firstIdx_eq_some_iff {α : Type} (p : α → Bool) (d : α) (l : List α) (i : Nat) :
    firstIdx p l = some i ↔
      i < l.length ∧ p (l.getD i d) = true ∧ ∀ j, j < i → p (l.getD j d) = false := by
  induction l generalizing i with
  | nil => simp [firstIdx]
  | cons a rest ih =>
    by_cases hp : p a = true
    · simp only [firstIdx, if_pos hp]
      constructor
      · intro h
        obtain rfl : i = 0 := by simpa using h.symm
        simpa using hp
      · rintro ⟨-, -, hall⟩
        cases i with
        | zero => rfl
        | succ k =>
          have := hall 0 (Nat.succ_pos k)
          simp only [List.getD_cons_zero] at this
          rw [hp] at this
          cases this
    · have hp' : p a = false := by
        cases h : p a
        · rfl
        · exact absurd h hp
      simp only [firstIdx, if_neg hp]
      cases i with
      | zero =>
        simp [hp', Option.map_eq_some']
      | succ k =>
        rw [Option.map_eq_some']
        constructor
        · rintro ⟨j, hj, hjk⟩
          obtain rfl : j = k := by omega
          obtain ⟨h1, h2, h3⟩ := (ih j).mp hj
          refine ⟨by simpa using Nat.succ_lt_succ h1, by simpa using h2, ?_⟩
          intro j hj'
          cases j with
          | zero => simpa using hp'
          | succ j' =>
            simp only [List.getD_cons_succ]
            exact h3 j' (by omega)
        · rintro ⟨h1, h2, h3⟩
          refine ⟨k, (ih k).mpr ⟨by simpa using h1, by simpa using h2, ?_⟩, rfl⟩
          intro j hj'
          have := h3 (j + 1) (by omega)
          simpa using this

theorem firstIdx_eq_none_iff {α : Type} (p : α → Bool) (l : List α) :
    firstIdx p l = none ↔ ∀ a ∈ l, p a = false := by
  induction l with
  | nil => simp [firstIdx]
  | cons a rest ih =>
    by_cases hp : p a = true
    · simp [firstIdx, hp]
    · have hp' : p a = false := by
        cases h : p a
        · rfl
        · exact absurd h hp
      simp [firstIdx, hp', ih]

theorem firstIdx_eq_none_idx {α : Type} (p : α → Bool) (d : α) (l : List α) :
    firstIdx p l = none ↔ ∀ j, j < l.length → p (l.getD j d) = false := by
  rw [firstIdx_eq_none_iff]
  constructor
  · intro h j hj
    rw [List.getD_eq_getElem _ _ hj]
    exact h _ (List.getElem_mem hj)
  · intro h a ha
    obtain ⟨j, hj, rfl⟩ := List.getElem_of_mem ha
    have := h j hj
    rwa [List.getD_eq_getElem _ _ hj] at this

theorem set_getD_self {α : Type} (l : List α) (i : Nat) (d : α) (h : i < l.length) :
    l.set i (l.getD i d) = l := by
  induction l generalizing i with
  | nil => simp at h
  | cons a rest ih =>
    cases i with
    | zero => simp
    | succ k =>
      simp only [List.set_cons_succ, List.getD_cons_succ, List.cons.injEq, true_and]
      exact ih k (by simpa using h)

theorem addTuple_eq_spec (slots : List Slot) (n : Nat) (hwf : SlotsWF slots) :
    addTuple slots n = addTupleSpecC3 slots n := by
  cases hq1 : firstIdx
      (fun s => s.empty && decide (s.offset ≠ INVALID_VALUE) && decide (n ≤ s.length))
      slots with
  | some i =>
    obtain ⟨hilen, hQi, hQlt⟩ := (firstIdx_eq_some_iff _ defaultSlot slots i).mp hq1
    simp only [Bool.and_eq_true, decide_eq_true_eq] at hQi
    obtain ⟨⟨hempty, hoff⟩, hlen⟩ := hQi
    have hp1 : firstIdx (fun s => s.empty && decide (n ≤ s.length)) slots = some i := by
      rw [firstIdx_eq_some_iff _ defaultSlot]
      refine ⟨hilen, by
        simp only [Bool.and_eq_true, decide_eq_true_eq]
        exact ⟨hempty, hlen⟩, ?_⟩
      intro j hj
      have hQj := hQlt j hj
      by_cases hoffj : (slots.getD j defaultSlot).offset = INVALID_VALUE
      · have := ((hwf j (lt_trans hj hilen)).1 hoffj).2.2 i hilen (le_of_lt hj)
        exact absurd this hoff
      · simp only [Bool.and_eq_false_iff, decide_eq_false_iff_not, not_not,
          not_le] at hQj ⊢
        rcases hQj with (he | ho) | hl
        · exact Or.inl he
        · exact absurd ho hoffj
        · exact Or.inr hl
    have hwf2 := (hwf i hilen).2 hoff
    have hlenne : (slots.getD i defaultSlot).length ≠ INVALID_VALUE := by
      unfold INVALID_VALUE
      unfold METADATA_SIZE PAGE_SIZE at hwf2
      omega
    have hnb : ¬ PAGE_SIZE ≤ (slots.getD i defaultSlot).offset + n := by omega
    simp only [addTuple, addTupleSpecC3, hp1, hq1]
    rw [if_neg hoff, if_pos hoff, if_neg hnb, if_neg hnb, if_neg hoff,
      if_neg hlenne, if_neg hlenne]
  | none =>
    have hq1idx := (firstIdx_eq_none_idx _ defaultSlot slots).mp hq1
    cases hq2 : firstIdx (fun s : Slot => decide (s.offset = INVALID_VALUE)) slots with
    | some nv =>
      obtain ⟨hnlen, hQ2i, hQ2lt⟩ := (firstIdx_eq_some_iff _ defaultSlot slots nv).mp hq2
      simp only [decide_eq_true_eq] at hQ2i
      have hused : ∀ j, j < nv → (slots.getD j defaultSlot).offset ≠ INVALID_VALUE := by
        intro j hj
        have := hQ2lt j hj
        simpa using this
      obtain ⟨hlenI, hemptyI, -⟩ := (hwf nv hnlen).1 hQ2i
      have hchoice_code :
          (match firstIdx (fun s => s.empty && decide (n ≤ s.length)) slots with
            | some i => some i
            | none =>
              firstIdx (fun s => s.empty && decide (s.offset = INVALID_VALUE)) slots) =
            some nv := by
        by_cases hn : n ≤ INVALID_VALUE
        · have hp1 : firstIdx (fun s => s.empty && decide (n ≤ s.length)) slots = some nv := by
            rw [firstIdx_eq_some_iff _ defaultSlot]
            refine ⟨hnlen, by
              simp only [Bool.and_eq_true, decide_eq_true_eq]
              exact ⟨hemptyI, by rw [hlenI]; exact hn⟩, ?_⟩
            intro j hj
            have hQ1j := hq1idx j (lt_trans hj hnlen)
            have hoffj := hused j hj
            simp only [Bool.and_eq_false_iff, decide_eq_false_iff_not, not_not,
              not_le] at hQ1j ⊢
            rcases hQ1j with (he | ho) | hl
            · exact Or.inl he
            · exact absurd ho hoffj
            · exact Or.inr hl
          rw [hp1]
        · have hp1 : firstIdx (fun s => s.empty && decide (n ≤ s.length)) slots = none := by
            rw [firstIdx_eq_none_idx _ defaultSlot]
            intro j hj
            by_cases hoffj : (slots.getD j defaultSlot).offset = INVALID_VALUE
            · have := ((hwf j hj).1 hoffj).1
              simp only [Bool.and_eq_false_iff, decide_eq_false_iff_not, not_le]
              right
              rw [this]
              omega
            · have := (hwf j hj).2 hoffj
              simp only [Bool.and_eq_false_iff, decide_eq_false_iff_not, not_le]
              right
              unfold METADATA_SIZE PAGE_SIZE at this
              unfold INVALID_VALUE at hn
              omega
          have hp2 : firstIdx (fun s => s.empty && decide (s.offset = INVALID_VALUE)) slots
              = some nv := by
            rw [firstIdx_eq_some_iff _ defaultSlot]
            refine ⟨hnlen, by
              simp only [Bool.and_eq_true, decide_eq_true_eq]
              exact ⟨hemptyI, hQ2i⟩, ?_⟩
            intro j hj
            have hoffj := hused j hj
            simp only [Bool.and_eq_false_iff, decide_eq_false_iff_not]
            exact Or.inr hoffj
          rw [hp1, hp2]
      have hbody :
          ∀ ch₁ ch₂, ch₁ = some nv → ch₂ = some nv →
          (match ch₁ with
            | none => (false, slots)
            | some i =>
              let sI := slots.getD i defaultSlot
              let offset :=
                if sI.offset = INVALID_VALUE then
                  if i ≠ 0 then
                    let prev := slots.getD (i - 1) defaultSlot
                    if prev.offset ≠ INVALID_VALUE then prev.offset + prev.length
                    else METADATA_SIZE
                  else METADATA_SIZE
                else sI.offset
              if PAGE_SIZE ≤ offset + n then
                (false, slots.set i { empty := true, offset := INVALID_VALUE, length := sI.length })
              else
                (true, slots.set i
                  { empty := false
                    offset := if sI.offset = INVALID_VALUE then offset % 65536 else sI.offset
                    length := if sI.length = INVALID_VALUE then n % 65536 else sI.length })) =
          (match ch₂ with
            | none => (false, slots)
            | some i =>
              let sI := slots.getD i defaultSlot
              let offset :=
                if sI.offset ≠ INVALID_VALUE then sI.offset
                else if i = 0 then METADATA_SIZE
                else (slots.getD (i - 1) defaultSlot).offset +
                  (slots.getD (i - 1) defaultSlot).length
              if PAGE_SIZE ≤ offset + n then
                (false, slots)
              else
                (true, slots.set i
                  { empty := false
                    offset := offset
                    length := if sI.length = INVALID_VALUE then n else sI.length })) := by
        rintro ch₁ ch₂ rfl rfl
        simp only
        have hoffeq :
            (if (slots.getD nv defaultSlot).offset = INVALID_VALUE then
              if nv ≠ 0 then
                if (slots.getD (nv - 1) defaultSlot).offset ≠ INVALID_VALUE then
                  (slots.getD (nv - 1) defaultSlot).offset +
                    (slots.getD (nv - 1) defaultSlot).length
                else METADATA_SIZE
              else METADATA_SIZE
            else (slots.getD nv defaultSlot).offset) =
            (if (slots.getD nv defaultSlot).offset ≠ INVALID_VALUE then
              (slots.getD nv defaultSlot).offset
            else if nv = 0 then METADATA_SIZE
            else (slots.getD (nv - 1) defaultSlot).offset +
              (slots.getD (nv - 1) defaultSlot).length) := by
          rw [hQ2i]
          simp only [ne_eq, not_true_eq_false, if_true, if_false, ite_true, ite_false]
          by_cases h0 : nv = 0
          · simp [h0]
          · have hprev := hused (nv - 1) (by omega)
            rw [if_pos h0, if_pos hprev, if_neg h0]
        rw [hoffeq]
        set off :=
          (if (slots.getD nv defaultSlot).offset ≠ INVALID_VALUE then
            (slots.getD nv defaultSlot).offset
          else if nv = 0 then METADATA_SIZE
          else (slots.getD (nv - 1) defaultSlot).offset +
            (slots.getD (nv - 1) defaultSlot).length) with hoffdef
        by_cases hb : PAGE_SIZE ≤ off + n
        · rw [if_pos hb, if_pos hb]
          have : (Slot.mk true INVALID_VALUE (slots.getD nv defaultSlot).length) =
              slots.getD nv defaultSlot := by
            rcases hsl : slots.getD nv defaultSlot with ⟨e, o, len⟩
            rw [hsl] at hemptyI hQ2i
            obtain rfl : e = true := hemptyI
            obtain rfl : o = INVALID_VALUE := hQ2i
            rfl
          rw [this, set_getD_self _ _ _ hnlen]
        · rw [if_neg hb, if_neg hb]
          have hofflt : off < 65536 := by
            unfold PAGE_SIZE at hb
            omega
          have hnlt : n < 65536 := by
            unfold PAGE_SIZE at hb
            omega
          rw [if_pos hQ2i, if_pos hlenI, if_pos hlenI,
            Nat.mod_eq_of_lt hofflt, Nat.mod_eq_of_lt hnlt]
      have hchoice_spec :
          (match firstIdx
              (fun s => s.empty && decide (s.offset ≠ INVALID_VALUE) && decide (n ≤ s.length))
              slots with
            | some i => some i
            | none => firstIdx (fun s : Slot => decide (s.offset = INVALID_VALUE)) slots) =
            some nv := by
        rw [hq1]
        exact hq2
      simp only [addTuple, addTupleSpecC3]
      exact hbody _ _ hchoice_code hchoice_spec
    | none =>
      have hq2idx := (firstIdx_eq_none_idx _ defaultSlot slots).mp hq2
      have hp1 : firstIdx (fun s => s.empty && decide (n ≤ s.length)) slots = none := by
        rw [firstIdx_eq_none_idx _ defaultSlot]
        intro j hj
        have hQ1j := hq1idx j hj
        have hoffj : (slots.getD j defaultSlot).offset ≠ INVALID_VALUE := by
          have := hq2idx j hj
          simpa using this
        simp only [Bool.and_eq_false_iff, decide_eq_false_iff_not, not_not,
          not_le] at hQ1j ⊢
        rcases hQ1j with (he | ho) | hl
        · exact Or.inl he
        · exact absurd ho hoffj
        · exact Or.inr hl
      have hp2 : firstIdx (fun s => s.empty && decide (s.offset = INVALID_VALUE)) slots
          = none := by
        rw [firstIdx_eq_none_idx _ defaultSlot]
        intro j hj
        have hoffj : (slots.getD j defaultSlot).offset ≠ INVALID_VALUE := by
          have := hq2idx j hj
          simpa using this
        simp only [Bool.and_eq_false_iff, decide_eq_false_iff_not]
        exact Or.inr hoffj
      simp only [addTuple, addTupleSpecC3]
      rw [hp1, hp2, hq1, hq2]

/-- C3.  On every well-formed slot directory, SlottedPage::addTuple behaves
exactly as the claim words it (`addTupleSpecC3`): the slot is the first
emptied slot whose retained length is at least the encoded size, otherwise the
first never-used slot, otherwise the insert fails NoSpace; the tuple's offset
is the reused slot's existing offset, or METADATA_SIZE for never-used slot 0,
or otherwise the predecessor slot's offset + length; and when
offset + encoded_size ≥ PAGE_SIZE it fails NoSpace with the chosen slot
reverted to its prior state (directory unchanged). -/
theorem c3_addTuple_slot_choice (slots : List Slot) (tuple_size : Nat) (hwf : SlotsWF slots) :
    addTuple slots tuple_size = addTupleSpecC3 slots tuple_size :=
  addTuple_eq_spec slots tuple_size hwf

/-- Instance of C3 at a concrete input: a directory with one emptied slot of
retained length 10 at offset 3072 and one never-used slot; inserting an
encoded size of 5 reuses the emptied slot at its retained offset. -/
theorem c3_addTuple_witness :
    SlotsWF [Slot.mk true 3072 10, defaultSlot] ∧
    addTuple [Slot.mk true 3072 10, defaultSlot] 5 =
      addTupleSpecC3 [Slot.mk true 3072 10, defaultSlot] 5 :=
  ⟨by decide, c3_addTuple_slot_choice [Slot.mk true 3072 10, defaultSlot] 5 (by decide)⟩

theorem addTupleSpecC3_failed (p : List Slot) (n : Nat) :
    (addTupleSpecC3 p n).1 = false → (addTupleSpecC3 p n).2 = p := by
  simp only [addTupleSpecC3]
  cases h1 : firstIdx
      (fun s => s.empty && decide (s.offset ≠ INVALID_VALUE) && decide (n ≤ s.length)) p with
  | some i =>
    dsimp only
    split_ifs <;> intro hh <;> first | rfl | cases hh
  | none =>
    cases h2 : firstIdx (fun s : Slot => decide (s.offset = INVALID_VALUE)) p with
    | some i =>
      dsimp only
      split_ifs <;> intro hh <;> first | rfl | cases hh
    | none =>
      intro
      rfl

theorem addTuple_failed_unchanged (p : List Slot) (n : Nat) (hwf : SlotsWF p)
    (h : (addTuple p n).1 = false) : (addTuple p n).2 = p := by
  rw [addTuple_eq_spec p n hwf] at h ⊢
  exact addTupleSpecC3_failed p n h

theorem insertScanTr_none (n : Nat) (db : List (List Slot)) (hwf : ∀ p ∈ db, SlotsWF p)
    (h : ∀ p ∈ db, (addTuple p n).1 = false) :
    insertScanTr n db = (false, db, List.replicate db.length false) := by
  induction db with
  | nil => rfl
  | cons p rest ih =>
    have hp := h p (List.mem_cons_self p rest)
    have hwp := hwf p (List.mem_cons_self p rest)
    have hunch := addTuple_failed_unchanged p n hwp hp
    simp only [insertScanTr, hp, Bool.false_eq_true, if_false]
    rw [ih (fun q hq => hwf q (List.mem_cons_of_mem p hq))
      (fun q hq => h q (List.mem_cons_of_mem p hq))]
    simp [hunch, List.replicate_succ]

theorem insertScanTr_some (n : Nat) (db : List (List Slot)) (hwf : ∀ p ∈ db, SlotsWF p)
    (i : Nat) (h : firstIdx (fun p => (addTuple p n).1) db = some i) :
    insertScanTr n db =
      (true, db.set i (addTuple (db.getD i []) n).2, List.replicate i false ++ [true]) := by
  induction db generalizing i with
  | nil => simp [firstIdx] at h
  | cons p rest ih =>
    by_cases hp : (addTuple p n).1 = true
    · simp only [firstIdx, hp, if_true] at h
      obtain rfl : i = 0 := by simpa using h.symm
      simp [insertScanTr, hp]
    · have hp' : (addTuple p n).1 = false := by
        cases hh : (addTuple p n).1
        · rfl
        · exact absurd hh hp
      have hwp := hwf p (List.mem_cons_self p rest)
      have hunch := addTuple_failed_unchanged p n hwp hp'
      simp only [firstIdx, hp', Bool.false_eq_true, if_false, Option.map_eq_some'] at h
      obtain ⟨k, hk, rfl⟩ := h
      rw [insertScanTr]
      simp only [hp', Bool.false_eq_true, if_false]
      rw [ih (fun q hq => hwf q (List.mem_cons_of_mem p hq)) k hk]
      simp [hunch, List.replicate_succ]

theorem addTuple_fresh (n : Nat) :
    addTuple freshSlots n =
      if PAGE_SIZE ≤ METADATA_SIZE + n then (false, freshSlots)
      else (true, freshSlots.set 0 (Slot.mk false METADATA_SIZE n)) := by
  have hfresh : freshSlots = defaultSlot :: List.replicate 511 defaultSlot := rfl
  have hget0 : freshSlots.getD 0 defaultSlot = defaultSlot := by rw [hfresh]; rfl
  have hlenpos : 0 < freshSlots.length := by
    rw [hfresh, List.length_cons]
    omega
  by_cases hn : n ≤ INVALID_VALUE
  · have hp1 : firstIdx (fun s => s.empty && decide (n ≤ s.length)) freshSlots = some 0 := by
      have hc : ((defaultSlot).empty && decide (n ≤ (defaultSlot).length)) = true := by
        simp [defaultSlot, hn]
      rw [firstIdx_eq_some_iff _ defaultSlot]
      exact ⟨hlenpos, by rw [hget0]; exact hc, fun j hj => absurd hj (Nat.not_lt_zero j)⟩
    simp only [addTuple, hp1, hget0]
    have hoffI : (defaultSlot : Slot).offset = INVALID_VALUE := rfl
    have hlenI : (defaultSlot : Slot).length = INVALID_VALUE := rfl
    simp only [defaultSlot, reduceCtorEq, if_pos rfl, ne_eq, not_true_eq_false,
      ite_false, ite_true]
    by_cases hb : PAGE_SIZE ≤ METADATA_SIZE + n
    · rw [if_pos hb, if_pos hb]
      have : (Slot.mk true INVALID_VALUE INVALID_VALUE) = defaultSlot := rfl
      rw [this, ← hget0, set_getD_self _ _ _ hlenpos]
    · rw [if_neg hb, if_neg hb]
      have hm : METADATA_SIZE % 65536 = METADATA_SIZE := by decide
      have hnn : n % 65536 = n := by
        apply Nat.mod_eq_of_lt
        unfold PAGE_SIZE METADATA_SIZE MAX_SLOTS SLOT_SIZE at hb
        omega
      rw [hm, hnn]
  · have hb : PAGE_SIZE ≤ METADATA_SIZE + n := by
      unfold PAGE_SIZE METADATA_SIZE MAX_SLOTS SLOT_SIZE
      unfold INVALID_VALUE at hn
      omega
    have hp1 : firstIdx (fun s => s.empty && decide (n ≤ s.length)) freshSlots = none := by
      rw [firstIdx_eq_none_iff]
      intro a ha
      have : a = defaultSlot := List.eq_of_mem_replicate ha
      subst this
      simp only [defaultSlot, Bool.and_eq_false_iff, decide_eq_false_iff_not, not_le]
      right
      unfold INVALID_VALUE at hn ⊢
      omega
    have hp2 : firstIdx (fun s => s.empty && decide (s.offset = INVALID_VALUE)) freshSlots
        = some 0 := by
      have hc : ((defaultSlot).empty && decide ((defaultSlot).offset = INVALID_VALUE)) = true := by
        simp [defaultSlot]
      rw [firstIdx_eq_some_iff _ defaultSlot]
      exact ⟨hlenpos, by rw [hget0]; exact hc, fun j hj => absurd hj (Nat.not_lt_zero j)⟩
    simp only [addTuple, hp1, hp2, hget0]
    simp only [defaultSlot, reduceCtorEq, if_pos rfl, ne_eq, not_true_eq_false,
      ite_false, ite_true]
    rw [if_pos hb, if_pos hb]
    have : (Slot.mk true INVALID_VALUE INVALID_VALUE) = defaultSlot := rfl
    rw [this, ← hget0, set_getD_self _ _ _ hlenpos]

/-- C4.  InsertOperator::next with a staged tuple of the given encoded size:
if some page admits the tuple and page i is the first that does, the scan
fixes pages 0..i in order, unfixes 0..i-1 clean and page i dirty (the trace
is i falses then a true), updates only page i, and does not extend the file;
if no existing page admits it, the file is extended exactly once by a fresh
page and the insert is retried there (trace: all clean, then the new page's
flag); and the call fails (returns false — the spec's TupleTooLarge) exactly
when no existing page admits the tuple and even an empty page cannot hold it,
i.e. METADATA_SIZE + size ≥ PAGE_SIZE. -/
theorem c4_insert_scan (db : List (List Slot)) (tuple_size : Nat)
    (hwf : ∀ p ∈ db, SlotsWF p) :
    (∀ i, firstIdx (fun p => (addTuple p tuple_size).1) db = some i →
      insertNext db tuple_size =
        (true, db.set i (addTuple (db.getD i []) tuple_size).2,
          List.replicate i false ++ [true])) ∧
    (firstIdx (fun p => (addTuple p tuple_size).1) db = none →
      insertNext db tuple_size =
        ((addTuple freshSlots tuple_size).1, db ++ [(addTuple freshSlots tuple_size).2],
          List.replicate db.length false ++ [(addTuple freshSlots tuple_size).1])) ∧
    ((insertNext db tuple_size).1 = false ↔
      (∀ p ∈ db, (addTuple p tuple_size).1 = false) ∧
        PAGE_SIZE ≤ METADATA_SIZE + tuple_size) := by
  have hfreshfail : (addTuple freshSlots tuple_size).1 = false ↔
      PAGE_SIZE ≤ METADATA_SIZE + tuple_size := by
    rw [addTuple_fresh]
    by_cases hb : PAGE_SIZE ≤ METADATA_SIZE + tuple_size
    · simp [hb]
    · simp [hb]
  refine ⟨?_, ?_, ?_⟩
  · intro i h
    have hs := insertScanTr_some tuple_size db hwf i h
    simp only [insertNext, hs, if_true]
  · intro h
    have hall : ∀ p ∈ db, (addTuple p tuple_size).1 = false :=
      (firstIdx_eq_none_iff _ db).mp h
    have hs := insertScanTr_none tuple_size db hwf hall
    simp only [insertNext, hs, Bool.false_eq_true, if_false]
  · cases hfi : firstIdx (fun p => (addTuple p tuple_size).1) db with
    | some i =>
      have hs := insertScanTr_some tuple_size db hwf i hfi
      simp only [insertNext, hs, if_true]
      constructor
      · intro hh
        cases hh
      · rintro ⟨hall, -⟩
        obtain ⟨hlen, hp, -⟩ :=
          (firstIdx_eq_some_iff (fun p => (addTuple p tuple_size).1) [] db i).mp hfi
        have hmem : db.getD i [] ∈ db := by
          rw [List.getD_eq_getElem _ _ hlen]
          exact List.getElem_mem hlen
        have hfalse := hall _ hmem
        rw [hfalse] at hp
        cases hp
    | none =>
      have hall : ∀ p ∈ db, (addTuple p tuple_size).1 = false :=
        (firstIdx_eq_none_iff _ db).mp hfi
      have hs := insertScanTr_none tuple_size db hwf hall
      simp only [insertNext, hs, Bool.false_eq_true, if_false]
      rw [hfreshfail]
      constructor
      · intro hh
        exact ⟨hall, hh⟩
      · rintro ⟨-, hb⟩
        exact hb

/-- Instance of C4 at a concrete input: a one-slot empty page admits the
tuple, so the scan succeeds on page 0, unfixing it dirty. -/
theorem c4_insert_witness :
    insertNext [[defaultSlot]] 5 =
      (true, [[defaultSlot]].set 0 (addTuple ([[defaultSlot]].getD 0 []) 5).2,
        List.replicate 0 false ++ [true]) :=
  (c4_insert_scan [[defaultSlot]] 5 (by decide)).1 0 (by decide)

/-- C6 as stated is FALSE: the page appended by the no-argument extend() is
not all-zero — its first byte (slot 0's empty flag) is 1, and every slot's
offset/length bytes are 0xFF. -/
theorem c6_extend_counterexample :
    ¬ ∀ i, i < PAGE_SIZE → ((extendF []).getD 0 zeroPageByte) i = 0 := by
  intro h
  have h0 := h 0 (by norm_num [PAGE_SIZE])
  have : ((extendF []).getD 0 zeroPageByte) 0 = 1 := by decide
  rw [this] at h0
  cases h0

/-- C6 (amended).  extend() appends exactly one page — the byte image of a
freshly initialized SlottedPage (slot directory entries {empty = 1,
offset = 0xFFFF, length = 0xFFFF}, tuple area zero), not an all-zero page —
and increments num_pages by one.  extend_to(page_id) with
page_id ≥ num_pages appends all-zero pages until num_pages = page_id + 1,
and otherwise leaves the file unchanged. -/
theorem c6_extend_appends (file : List (Nat → Nat)) :
    (extendF file = file ++ [freshPageByte] ∧
      (extendF file).length = file.length + 1 ∧
      freshPageByte 0 = 1 ∧
      (∀ i, METADATA_SIZE ≤ i → freshPageByte i = 0)) ∧
    (∀ till, file.length ≤ till →
      extendTo file till = file ++ List.replicate (till + 1 - file.length) zeroPageByte ∧
      (extendTo file till).length = till + 1) ∧
    (∀ till, till < file.length → extendTo file till = file) := by
  refine ⟨⟨rfl, by simp [extendF], rfl, ?_⟩, ?_, ?_⟩
  · intro i hi
    unfold freshPageByte
    rw [if_neg (by omega)]
  · intro till htill
    have hnlt : ¬ till < file.length := by omega
    constructor
    · unfold extendTo
      rw [if_neg hnlt]
    · unfold extendTo
      rw [if_neg hnlt]
      simp only [List.length_append, List.length_replicate]
      omega
  · intro till htill
    unfold extendTo
    rw [if_pos htill]

/-- Instance of C6 at a concrete input: extending an empty file to page id 1
appends two zero pages. -/
theorem c6_extend_witness :
    extendTo [] 1 = [] ++ List.replicate 2 zeroPageByte ∧ (extendTo [] 1).length = 2 :=
  (c6_extend_appends []).2.1 1 (Nat.zero_le 1)

set_option maxRecDepth 40000 in
/-- C10.  A page of all-zero bytes decodes — because a zero empty-flag byte
means occupied — to 512 slots all occupied with offset 0 and length 0, so
countTuples returns 512; the fresh page appended by the no-argument extend()
decodes to 512 never-used empty slots, so countTuples returns 0; and every
page extend(till_page_id) appends beyond the old length is all-zero. -/
theorem c10_zero_page_slots :
    decodePage zeroPageByte = List.replicate MAX_SLOTS (Slot.mk false 0 0) ∧
    countTuples zeroPageByte = MAX_SLOTS ∧
    decodePage freshPageByte = List.replicate MAX_SLOTS defaultSlot ∧
    countTuples freshPageByte = 0 ∧
    ∀ (file : List (Nat → Nat)) (till : Nat) (p : Nat → Nat),
      p ∈ (extendTo file till).drop file.length → p = zeroPageByte := by
  refine ⟨by decide, by decide, by decide, by decide, ?_⟩
  intro file till p hp
  unfold extendTo at hp
  by_cases h : till < file.length
  · rw [if_pos h, List.drop_length] at hp
    cases hp
  · rw [if_neg h, List.drop_left] at hp
    exact List.eq_of_mem_replicate hp

/-- Instance of C10's quantified conjunct at a concrete input: the one page
appended by extending the empty file to page id 0 is the zero page. -/
theorem c10_zero_page_witness :
    (extendTo [] 0).getD 0 zeroPageByte = zeroPageByte :=
  c10_zero_page_slots.2.2.2.2 [] 0 ((extendTo [] 0).getD 0 zeroPageByte) (by
    show (extendTo [] 0).getD 0 zeroPageByte ∈ [zeroPageByte]
    exact List.Mem.head _)

theorem cStr_eq_self (s : List Nat) (h : 0 ∉ s) : cStr s = s := by
  induction s with
  | nil => rfl
  | cons a as ih =>
    have ha : a ≠ 0 := fun hh => h (hh ▸ List.mem_cons_self a as)
    have has : 0 ∉ as := fun hm => h (List.mem_cons_of_mem a hm)
    simp [cStr, List.takeWhile_cons, ha]
    simpa [cStr] using ih has

theorem bytesLt_iff_lex (s t : List Nat) :
    bytesLt s t = true ↔ List.Lex (fun a b : Nat => a < b) s t := by
  induction s generalizing t with
  | nil =>
    cases t with
    | nil =>
      simp only [bytesLt]
      constructor
      · intro h
        cases h
      · intro h
        cases h
    | cons b bs =>
      simp only [bytesLt]
      exact ⟨fun _ => List.Lex.nil, fun _ => by trivial⟩
  | cons a as ih =>
    cases t with
    | nil =>
      simp only [bytesLt]
      constructor
      · intro h
        cases h
      · intro h
        cases h
    | cons b bs =>
      simp only [bytesLt]
      by_cases h1 : a < b
      · rw [if_pos h1]
        exact ⟨fun _ => List.Lex.rel h1, fun _ => by trivial⟩
      · rw [if_neg h1]
        by_cases h2 : b < a
        · rw [if_pos h2]
          constructor
          · intro h
            cases h
          · intro h
            cases h with
            | rel hr => exact absurd hr h1
            | cons hc => exact absurd rfl (Nat.ne_of_gt h2)
        · rw [if_neg h2]
          obtain rfl : a = b := by omega
          rw [ih bs]
          constructor
          · exact fun h => List.Lex.cons h
          · intro h
            cases h with
            | rel hr => exact absurd hr h1
            | cons hc => exact hc

/-- C7's ordering clause is FALSE on the code: for an INT field against a
STRING field, type-ordinal ordering (int < string) would make the comparison
true, but operator< returns false for every type mismatch — and its second
component witnesses the cerr diagnostic, refuting the no-side-effect clause
as well. -/
theorem c7_compare_counterexample :
    fieldLt (Field.int 0) (Field.str [97]) = (false, true) := rfl

/-- C7 (amended).  Field comparisons: a == b iff the fields have the same
type and the same value; every mismatched-type comparison other than ==
returns false AFTER writing the incompatible-type diagnostic to cerr (so <
is not decided by type ordinal, and comparison is not side-effect free);
equal-typed comparisons emit no diagnostic and compare values — ints and
floats by their numeric order, strings by lexicographic byte comparison
(shown against Mathlib's lexicographic order for NUL-free strings); no
comparison throws on well-formed tags (all model functions are total). -/
theorem c7_field_comparisons (a b : Field) :
    (fieldEq a b = true ↔ a = b) ∧
    (a.type ≠ b.type → fieldLt a b = (false, true) ∧ fieldNe a b = (false, true)) ∧
    (a.type = b.type → (fieldLt a b).2 = false ∧ (fieldNe a b).2 = false) ∧
    (∀ x y : Int, fieldLt (.int x) (.int y) = (decide (x < y), false)) ∧
    (∀ x y : Rat, fieldLt (.float x) (.float y) = (decide (x < y), false)) ∧
    (∀ s t : List Nat, 0 ∉ s → 0 ∉ t →
      ((fieldLt (.str s) (.str t)).1 = true ↔ List.Lex (fun x y : Nat => x < y) s t)) := by
  refine ⟨?_, ?_, ?_, fun x y => rfl, fun x y => rfl, ?_⟩
  · cases a <;> cases b <;> simp [fieldEq]
  · cases a <;> cases b <;> intro h <;>
      first
        | exact ⟨rfl, rfl⟩
        | exact absurd rfl h
  · cases a <;> cases b <;> intro h <;>
      first
        | exact ⟨rfl, rfl⟩
        | cases h
  · intro s t hs ht
    show (bytesLt (cStr s) (cStr t), false).1 = true ↔ _
    rw [cStr_eq_self s hs, cStr_eq_self t ht]
    exact bytesLt_iff_lex s t

/-- Instance of C7's string clause at a concrete input. -/
theorem c7_compare_witness :
    (fieldLt (Field.str [97]) (Field.str [97, 98])).1 = true ↔
      List.Lex (fun x y : Nat => x < y) [97] [97, 98] :=
  (c7_field_comparisons (Field.str [97]) (Field.str [97, 98])).2.2.2.2.2 [97] [97, 98]
    (by decide) (by decide)

/-- C8 is FALSE on the code: += with a mismatched tag does not fail with
TypeMismatch — the field is silently left unchanged, where the claim
(addIntSpecC8) demands a failure. -/
theorem c8_addint_counterexample :
    Field.addInt (Field.float 1) 3 = Field.float 1 ∧
    addIntSpecC8 (Field.float 1) 3 = none :=
  ⟨rfl, rfl⟩

/-- C8 (amended).  Field::operator+= with a mismatched tag silently leaves
the field unchanged — there is no TypeMismatch error; with a matching tag
it adds the operand to the stored value (int32 wraparound for INT; exact
rational addition abstracting the IEEE addition for FLOAT); the tag is never
changed. -/
theorem c8_addition_silent_mismatch (f : Field) (v : Int) (q : Rat) :
    (f.type ≠ .INT → f.addInt v = f) ∧
    (∀ x : Int, (Field.int x).addInt v = .int (wrap32 (x + v))) ∧
    (f.type ≠ .FLOAT → f.addFloat q = f) ∧
    (∀ x : Rat, (Field.float x).addFloat q = .float (x + q)) ∧
    (f.addInt v).type = f.type ∧ (f.addFloat q).type = f.type := by
  refine ⟨?_, fun x => rfl, ?_, fun x => rfl, ?_, ?_⟩
  · intro h
    cases f with
    | int x => exact absurd rfl h
    | float x => rfl
    | str s => rfl
  · intro h
    cases f with
    | int x => rfl
    | float x => exact absurd rfl h
    | str s => rfl
  · cases f <;> rfl
  · cases f <;> rfl

/-- Instance of C8 at a concrete input: += int on a STRING field is a silent
no-op. -/
theorem c8_addition_witness :
    (Field.str [97]).addInt 3 = Field.str [97] :=
  (c8_addition_silent_mismatch (Field.str [97]) 3 0).1 (by decide)

theorem digit_bounds (b : Nat) (hb : isDigitByte b = true) : 48 ≤ b ∧ b ≤ 57 := by
  simpa [isDigitByte] using hb

theorem digit_not_ws (b : Nat) (hb : isDigitByte b = true) : isWs b = false := by
  obtain ⟨h1, h2⟩ := digit_bounds b hb
  simp only [isWs, Bool.or_eq_false_iff, beq_eq_false_iff_ne, ne_eq]
  omega

theorem natToBytesCore_digits (fuel : Nat) :
    ∀ n, ∀ b ∈ natToBytesCore fuel n, isDigitByte b = true := by
  induction fuel with
  | zero =>
    intro n b hb
    cases hb
  | succ fuel ih =>
    intro n b hb
    unfold natToBytesCore at hb
    by_cases h : n = 0
    · rw [if_pos h] at hb
      cases hb
    · rw [if_neg h] at hb
      rcases List.mem_append.mp hb with h1 | h2
      · exact ih (n / 10) b h1
      · obtain rfl : b = n % 10 + 48 := by simpa using h2
        have hlt : n % 10 < 10 := Nat.mod_lt n (by norm_num)
        simp only [isDigitByte, Bool.and_eq_true, decide_eq_true_eq]
        omega

theorem natToBytes_digits (n : Nat) : ∀ b ∈ natToBytes n, isDigitByte b = true := by
  unfold natToBytes
  by_cases h : n = 0
  · rw [if_pos h]
    intro b hb
    obtain rfl : b = 48 := by simpa using hb
    decide
  · rw [if_neg h]
    exact natToBytesCore_digits n n

theorem natToBytes_ne_nil (n : Nat) : natToBytes n ≠ [] := by
  unfold natToBytes
  by_cases h : n = 0
  · rw [if_pos h]
    simp
  · rw [if_neg h]
    cases hn : n with
    | zero => exact absurd hn h
    | succ m =>
      unfold natToBytesCore
      rw [if_neg (hn ▸ h)]
      simp

theorem digitsVal_append_digit (L : List Nat) (d : Nat) :
    digitsVal (L ++ [d]) = digitsVal L * 10 + (d - 48) := by
  unfold digitsVal
  rw [List.foldl_append]
  rfl

theorem digitsVal_core (fuel : Nat) :
    ∀ n, n ≤ fuel → digitsVal (natToBytesCore fuel n) = n := by
  induction fuel with
  | zero =>
    intro n hn
    obtain rfl : n = 0 := by omega
    rfl
  | succ fuel ih =>
    intro n hn
    by_cases h : n = 0
    · subst h
      rfl
    · unfold natToBytesCore
      rw [if_neg h, digitsVal_append_digit, ih (n / 10) (by omega)]
      omega

theorem digitsVal_natToBytes (n : Nat) : digitsVal (natToBytes n) = n := by
  unfold natToBytes
  by_cases h : n = 0
  · rw [if_pos h, h]
    rfl
  · rw [if_neg h]
    exact digitsVal_core n n le_rfl

theorem takeWhile_append_stop (p : Nat → Bool) (l : List Nat) (x : Nat) (r : List Nat)
    (hl : ∀ b ∈ l, p b = true) (hx : p x = false) :
    (l ++ x :: r).takeWhile p = l ∧ (l ++ x :: r).dropWhile p = x :: r := by
  induction l with
  | nil =>
    simp [List.takeWhile_cons, List.dropWhile_cons, hx]
  | cons a as ih =>
    have ha := hl a (List.mem_cons_self a as)
    obtain ⟨h1, h2⟩ := ih (fun b hb => hl b (List.mem_cons_of_mem a hb))
    simp [List.takeWhile_cons, List.dropWhile_cons, ha, h1, h2]

theorem readInt_token (tok : List Nat) (r : List Nat) (hne : tok ≠ [])
    (hdig : ∀ b ∈ tok, isDigitByte b = true) :
    IStream.readInt ⟨tok ++ 32 :: r, false⟩ = ((digitsVal tok : Int), ⟨32 :: r, false⟩) := by
  obtain ⟨b, bs, rfl⟩ : ∃ b bs, tok = b :: bs := by
    cases tok with
    | nil => exact absurd rfl hne
    | cons b bs => exact ⟨b, bs, rfl⟩
  have hb := hdig b (List.mem_cons_self b bs)
  obtain ⟨hb1, hb2⟩ := digit_bounds b hb
  have hws : isWs b = false := digit_not_ws b hb
  obtain ⟨htake, hdrop⟩ :=
    takeWhile_append_stop isDigitByte (b :: bs) 32 r hdig (by decide)
  simp only [List.cons_append] at htake hdrop
  have hskip : List.dropWhile isWs (b :: (bs ++ 32 :: r)) = b :: (bs ++ 32 :: r) := by
    rw [List.dropWhile_cons, hws]
    simp
  have h45 : (b : Nat) ≠ 45 := by omega
  have h43 : (b : Nat) ≠ 43 := by omega
  simp [IStream.readInt, hskip, htake, hdrop, h45, h43]

theorem readInt_neg_token (tok : List Nat) (r : List Nat) (hne : tok ≠ [])
    (hdig : ∀ b ∈ tok, isDigitByte b = true) :
    IStream.readInt ⟨45 :: (tok ++ 32 :: r), false⟩ =
      (-(digitsVal tok : Int), ⟨32 :: r, false⟩) := by
  obtain ⟨htake, hdrop⟩ := takeWhile_append_stop isDigitByte tok 32 r hdig (by decide)
  have hw45 : isWs 45 = false := by decide
  have hskip : List.dropWhile isWs (45 :: (tok ++ 32 :: r)) = 45 :: (tok ++ 32 :: r) := by
    rw [List.dropWhile_cons, hw45]
    simp
  simp [IStream.readInt, hskip, htake, hdrop, hne]

theorem readInt_natToBytes (n : Nat) (r : List Nat) :
    IStream.readInt ⟨natToBytes n ++ 32 :: r, false⟩ = ((n : Int), ⟨32 :: r, false⟩) := by
  rw [readInt_token (natToBytes n) r (natToBytes_ne_nil n) (natToBytes_digits n),
    digitsVal_natToBytes]

theorem readInt_intToBytes (v : Int) (r : List Nat) :
    IStream.readInt ⟨intToBytes v ++ 32 :: r, false⟩ = (v, ⟨32 :: r, false⟩) := by
  by_cases hv : v < 0
  · have e1 : intToBytes v = 45 :: natToBytes (-v).toNat := by
      rw [intToBytes, if_pos hv]
    rw [e1, List.cons_append,
      readInt_neg_token _ _ (natToBytes_ne_nil _) (natToBytes_digits _),
      digitsVal_natToBytes]
    have : (((-v).toNat : Int)) = -v := Int.toNat_of_nonneg (by omega)
    rw [this, neg_neg]
  · have e1 : intToBytes v = natToBytes v.toNat := by
      rw [intToBytes, if_neg hv]
    rw [e1, readInt_natToBytes, Int.toNat_of_nonneg (by omega)]

theorem readStr_token (tok : List Nat) (r : List Nat) (hne : tok ≠ [])
    (hws : ∀ b ∈ tok, isWs b = false) :
    IStream.readStr ⟨tok ++ 32 :: r, false⟩ = (tok, ⟨32 :: r, false⟩) := by
  obtain ⟨b, bs, rfl⟩ : ∃ b bs, tok = b :: bs := by
    cases tok with
    | nil => exact absurd rfl hne
    | cons b bs => exact ⟨b, bs, rfl⟩
  have hb := hws b (List.mem_cons_self b bs)
  obtain ⟨htake, hdrop⟩ :=
    takeWhile_append_stop (fun c => !isWs c) (b :: bs) 32 r
      (fun x hx => by simp [hws x hx]) (by decide)
  simp only [List.cons_append] at htake hdrop
  have hskip : List.dropWhile isWs (b :: (bs ++ 32 :: r)) = b :: (bs ++ 32 :: r) := by
    rw [List.dropWhile_cons, hb]
    simp
  simp [IStream.readStr, hskip, htake, hdrop]

theorem readInt_ws (l : List Nat) :
    IStream.readInt ⟨32 :: l, false⟩ = IStream.readInt ⟨l, false⟩ := rfl

theorem readStr_ws (l : List Nat) :
    IStream.readStr ⟨32 :: l, false⟩ = IStream.readStr ⟨l, false⟩ := rfl

theorem deserializeB_ws (l : List Nat) :
    Field.deserializeB ⟨32 :: l, false⟩ = Field.deserializeB ⟨l, false⟩ := by
  unfold Field.deserializeB
  rw [readInt_ws]

theorem deserializeFields_ws (n : Nat) (l : List Nat) :
    deserializeFields n ⟨32 :: l, false⟩ = deserializeFields n ⟨l, false⟩ := by
  cases n with
  | zero => rfl
  | succ k =>
    unfold deserializeFields
    rw [deserializeB_ws]

theorem deserializeB_serialize (f : Field) (hf : FieldRT f) (r : List Nat) :
    Field.deserializeB ⟨Field.serializeBytes f ++ r, false⟩ = (some f, ⟨32 :: r, false⟩) := by
  cases f with
  | float q => exact absurd hf (by simp [FieldRT])
  | int v =>
    have e1 : Field.serializeBytes (Field.int v) ++ r =
        natToBytes 0 ++ 32 :: (natToBytes 4 ++ 32 :: (intToBytes v ++ 32 :: r)) := by
      simp [Field.serializeBytes, List.append_assoc]
    rw [e1]
    simp only [Field.deserializeB]
    rw [readInt_natToBytes 0 _]
    dsimp only
    rw [readInt_ws, readInt_natToBytes 4 _]
    dsimp only
    norm_num
    rw [readInt_ws, readInt_intToBytes v r]
    exact ⟨rfl, rfl⟩
  | str s =>
    obtain ⟨hne, hprop⟩ := hf
    have hnul : 0 ∉ s := fun hm => (hprop 0 hm).2 rfl
    have e1 : Field.serializeBytes (Field.str s) ++ r =
        natToBytes 2 ++ 32 :: (natToBytes (s.length + 1) ++ 32 :: (s ++ 32 :: r)) := by
      simp [Field.serializeBytes, cStr_eq_self s hnul, List.append_assoc]
    rw [e1]
    simp only [Field.deserializeB]
    rw [readInt_natToBytes 2 _]
    dsimp only
    rw [readInt_ws, readInt_natToBytes (s.length + 1) _]
    dsimp only
    norm_num
    rw [readStr_ws, readStr_token s r hne (fun b hb => (hprop b hb).1)]
    exact ⟨rfl, rfl⟩

theorem deserializeFields_serialize (fs : List Field) (h : ∀ f ∈ fs, FieldRT f)
    (r : List Nat) :
    deserializeFields fs.length ⟨(fs.map Field.serializeBytes).flatten ++ r, false⟩ =
      fs.map some := by
  induction fs generalizing r with
  | nil => rfl
  | cons f rest ih =>
    have hf := h f (List.mem_cons_self f rest)
    simp only [List.map_cons, List.flatten_cons, List.length_cons]
    rw [List.append_assoc]
    unfold deserializeFields
    rw [deserializeB_serialize f hf ((rest.map Field.serializeBytes).flatten ++ r)]
    dsimp only
    rw [deserializeFields_ws,
      ih (fun g hg => h g (List.mem_cons_of_mem f hg)) r]

/-- C5 as stated is FALSE: the empty string is (vacuously) whitespace-free,
yet the tuple [Field("" ), Field(42)] does not round-trip — the empty string
serializes to no token, so deserialization reads the NEXT field's type tag
"0" as the string's value and then misparses the remainder, yielding
[Field("0"), nullptr] instead of the original tuple. -/
theorem c5_roundtrip_counterexample :
    (∀ b ∈ ([] : List Nat), isWs b = false) ∧
    Tuple.deserializeB ⟨Tuple.serializeBytes [Field.str [], Field.int 42], false⟩ =
      [some (Field.str [48]), none] ∧
    Tuple.deserializeB ⟨Tuple.serializeBytes [Field.str [], Field.int 42], false⟩ ≠
      [Field.str [], Field.int 42].map some := by
  refine ⟨?_, by decide, by decide⟩
  intro b hb
  cases hb

/-- C5 (amended).  Deserializing the serialization of a tuple returns the
tuple (every field decoded successfully) whenever every string field is
whitespace-free, NONEMPTY and NUL-free and every int field is in int32
range; float fields are excluded because the C++ stream's 6-significant-digit
float formatting is lossy and does not round-trip.  (The arity bound is the
machine constraint fields.size() < 2^64.) -/
theorem c5_roundtrip_amended (fs : List Field) (h : ∀ f ∈ fs, FieldRT f)
    (hlen : fs.length < 2 ^ 64) :
    Tuple.deserializeB ⟨Tuple.serializeBytes fs, false⟩ = fs.map some := by
  have e1 : Tuple.serializeBytes fs =
      natToBytes fs.length ++ 32 :: (fs.map Field.serializeBytes).flatten := by
    simp [Tuple.serializeBytes, List.append_assoc]
  rw [e1]
  simp only [Tuple.deserializeB]
  rw [readInt_natToBytes fs.length _]
  dsimp only
  have hc : (((fs.length : Int)) % (2 : Int) ^ 64).toNat = fs.length := by
    rw [Int.emod_eq_of_lt (by positivity) (by exact_mod_cast hlen)]
    exact Int.toNat_natCast fs.length
  rw [hc, deserializeFields_ws]
  have := deserializeFields_serialize fs h []
  rwa [List.append_nil] at this

/-- Instance of C5 at a concrete input: an int and a nonempty string
round-trip. -/
theorem c5_roundtrip_witness :
    Tuple.deserializeB ⟨Tuple.serializeBytes [Field.int 7, Field.str [97, 98]], false⟩ =
      [Field.int 7, Field.str [97, 98]].map some :=
  c5_roundtrip_amended [Field.int 7, Field.str [97, 98]] (by decide) (by decide)

/-- C9 as stated is FALSE: on the stream "1 5 4 " the single announced field
has the unknown type tag 5; Tuple::deserialize does not fail with
CorruptTuple — no such error exists — but returns a tuple containing a null
field. -/
theorem c9_deserialize_counterexample :
    Tuple.deserializeB ⟨[49, 32, 53, 32, 52, 32], false⟩ = [none] := by decide

/-- C9 (amended).  Tuple::deserialize never fails: it returns a tuple with
exactly the announced number of fields, and the k-th field of that tuple is
a null pointer precisely when the k-th announced type tag read from the
stream is none of 0 (INT), 1 (FLOAT) and 2 (STRING) — a failed field decode
yields a null field inside the returned tuple, not a CorruptTuple error. -/
theorem c9_deserialize_null_fields :
    (∀ n s, (deserializeFields n s).length = n) ∧
    (∀ s : IStream, Tuple.deserializeB s =
      deserializeFields (((s.readInt).1 % (2 : Int) ^ 64).toNat) (s.readInt).2) ∧
    (∀ k n s, k < n →
      (deserializeFields n s)[k]? =
        some (Field.deserializeB (fieldStreamAt s k)).1) ∧
    (∀ s : IStream, (Field.deserializeB s).1 = none ↔
      ((s.readInt).1 ≠ 0 ∧ (s.readInt).1 ≠ 1 ∧ (s.readInt).1 ≠ 2)) := by
  refine ⟨?_, fun s => rfl, ?_, ?_⟩
  · intro n
    induction n with
    | zero => intro s; rfl
    | succ k ih =>
      intro s
      simp [deserializeFields, ih]
  · intro k
    induction k with
    | zero =>
      intro n s hn
      cases n with
      | zero => omega
      | succ m =>
        show (deserializeFields (m + 1) s)[0]? = _
        unfold deserializeFields
        dsimp only
        rw [List.getElem?_cons_zero]
        rfl
    | succ k ih =>
      intro n s hn
      cases n with
      | zero => omega
      | succ m =>
        show (deserializeFields (m + 1) s)[k + 1]? = _
        unfold deserializeFields
        dsimp only
        rw [List.getElem?_cons_succ]
        exact ih m (Field.deserializeB s).2 (by omega)
  · intro s
    simp only [Field.deserializeB]
    by_cases h2 : (s.readInt).1 = 2
    · rw [if_pos h2]
      simp [h2]
    · rw [if_neg h2]
      by_cases h0 : (s.readInt).1 = 0
      · rw [if_pos h0]
        simp [h0]
      · rw [if_neg h0]
        by_cases h1 : (s.readInt).1 = 1
        · rw [if_pos h1]
          simp [h1]
        · rw [if_neg h1]
          simp [h0, h1, h2]

end BuzzDB
